import Mathlib

/-!
Verification of the reference (CPU) device kernels of the primitiv tensor library.

The development shallowly embeds `src/primitiv/cpu_device.cc`: tensors are their
shapes plus the flat column-major, batch-last storage contents, one rational per
float cell, and every kernel is translated loop-for-loop into an explicit
description of the cells it writes.  The `Shape` helper class lives in
`primitiv/shape.h`, which is not part of the sources at hand, so its operations
are modelled from the specification (spec §3, §4.1).
-/

namespace Primitiv

/-- Modelled from the spec: `primitiv/shape.h` is not under `src/`.  Per spec §3/§4.1
a Shape is an ordered sequence of per-axis extents plus a batch size; axis lookup
returns 1 for indices past the declared rank; `num_elements_under_rank d` is the
product of the extents at axes `0 … d-1`; elements-per-sample is the product of all
extents; total elements is elements-per-sample times batch. -/
structure Shape where
  dims : List Nat
  batch : Nat
deriving DecidableEq, Repr

/-- Axis lookup: extent of axis `d`, 1 past the declared rank (spec §4.1). -/
def Shape.dim (s : Shape) (d : Nat) : Nat := s.dims.getD d 1

/-- Batch size accessor. -/
def Shape.batch_size (s : Shape) : Nat := s.batch

/-- Product of all per-axis extents (spec §3). -/
def Shape.num_elements_per_sample (s : Shape) : Nat := s.dims.prod

/-- Elements-per-sample times batch (spec §3). -/
def Shape.num_total_elements (s : Shape) : Nat :=
  s.num_elements_per_sample * s.batch

/-- Product of the extents at axes `0 … d-1` (spec §4.1). -/
def Shape.num_elements_under_rank (s : Shape) (d : Nat) : Nat :=
  (s.dims.take d).prod

/-- Modelled from the spec: returns a Shape with axis `d` replaced by `n`
(spec §4.1); replacing an axis past the declared rank materialises the implicit
unit axes before it. -/
def Shape.resize_dim (s : Shape) (d n : Nat) : Shape :=
  if d < s.dims.length then ⟨s.dims.set d n, s.batch⟩
  else ⟨s.dims ++ List.replicate (d - s.dims.length) 1 ++ [n], s.batch⟩

/-- Modelled from the spec: returns a Shape with batch size `n` (spec §4.1). -/
def Shape.resize_batch (s : Shape) (n : Nat) : Shape := ⟨s.dims, n⟩

/-- Per spec §3 shape equality compares extents with trailing unit axes ignored:
this is the canonical extent list. -/
def Shape.canonical (s : Shape) : List Nat :=
  ((s.dims.reverse.dropWhile (· == 1)).reverse)

/-- Two shapes are broadcast-compatible iff their per-sample shapes are equal and
their batch sizes either match or at least one is 1 (spec §3). -/
def Shape.broadcast_compatible (sa sb : Shape) : Prop :=
  sa.canonical = sb.canonical ∧
  (sa.batch = sb.batch ∨ sa.batch = 1 ∨ sb.batch = 1)

/-- A Tensor as held by the reference device (`src/primitiv/tensor.h`): its Shape
plus the flat column-major, batch-last storage contents. -/
structure Tensor where
  shape : Shape
  values : List ℚ
deriving DecidableEq, Repr

/-- Storage read at flat cell index `i`. -/
def Tensor.el (t : Tensor) (i : Nat) : ℚ := t.values.getD i 0

/-- Well-formed storage: the block holds exactly `num_total_elements` cells. -/
def Tensor.wf (t : Tensor) : Prop :=
  t.values.length = t.shape.num_total_elements

/-- Sequential writes of a device loop: cell `i` of a freshly written block of `n`
cells receives `f i`. -/
def rangeMap (n : Nat) (f : Nat → ℚ) : List ℚ := (List.range n).map f

/-- Embeds `CPUDevice::tensor_to_vector_impl` (src/primitiv/cpu_device.cc:57-62):
copies the first `num_total_elements` floats of the storage into a host vector. -/
def tensor_to_vector_impl (x : Tensor) : List ℚ :=
  x.values.take x.shape.num_total_elements

/-- Embeds `CPUDevice::step_impl` (src/primitiv/cpu_device.cc:387-394):
`dest[i] = static_cast<float>(src[i] > 0)`. -/
def step_impl (x : Tensor) : Tensor :=
  ⟨x.shape, rangeMap x.shape.num_total_elements (fun i => if 0 < x.el i then 1 else 0)⟩

/-- Embeds `CPUDevice::relu_impl` (src/primitiv/cpu_device.cc:396-403):
`dest[i] = std::max(src[i], .0f)`. -/
def relu_impl (x : Tensor) : Tensor :=
  ⟨x.shape, rangeMap x.shape.num_total_elements (fun i => max (x.el i) 0)⟩

/-- Embeds `CPUDevice::random_bernoulli_impl` (src/primitiv/cpu_device.cc:74-81).
The successive boolean draws of `std::bernoulli_distribution` on the device RNG are
abstracted as the sequence `draws`; each one is cast to float, i.e. to 1 or 0. -/
def random_bernoulli_impl (shape : Shape) (p : ℚ) (draws : Nat → Bool) : Tensor :=
  ⟨shape, rangeMap shape.num_total_elements (fun i => if draws i then 1 else 0)⟩

/-- Embeds `CPUDevice::random_uniform_impl` (src/primitiv/cpu_device.cc:83-94).
The successive draws of `std::uniform_real_distribution` on the device RNG are
abstracted as the sequence `draws`; a draw equal to `lower` is remapped to `upper`. -/
def random_uniform_impl (shape : Shape) (lower upper : ℚ) (draws : Nat → ℚ) : Tensor :=
  ⟨shape, rangeMap shape.num_total_elements
    (fun i => if draws i = lower then upper else draws i)⟩

/-- Element at per-sample index `i` of batch entry `k`, reading the tensor's own
column-major, batch-last layout. -/
def Tensor.sample_el (t : Tensor) (i k : Nat) : ℚ :=
  t.el (k * t.shape.num_elements_per_sample + i)

/-- Embeds the tensor/tensor overload of `CPUDevice::add_impl`
(src/primitiv/cpu_device.cc:177-195): `size` per-sample elements per batch entry,
`bs = max` of the batch sizes, and per-batch source stride 0 for an operand of
batch 1; flat dest cell `t = b*size + i` receives
`src_a[b*skip_a + i] + src_b[b*skip_b + i]`. -/
def add_impl (a b : Tensor) : Tensor :=
  let size := a.shape.num_elements_per_sample
  let bs := max a.shape.batch_size b.shape.batch_size
  let skip_a := (if 1 < a.shape.batch_size then 1 else 0) * size
  let skip_b := (if 1 < b.shape.batch_size then 1 else 0) * size
  ⟨a.shape.resize_batch bs,
   rangeMap (bs * size) (fun t =>
     a.el ((t / size) * skip_a + t % size) + b.el ((t / size) * skip_b + t % size))⟩

/-- Embeds the tensor/tensor overload of `CPUDevice::subtract_impl`
(src/primitiv/cpu_device.cc:215-233), identical in structure to `add_impl`. -/
def subtract_impl (a b : Tensor) : Tensor :=
  let size := a.shape.num_elements_per_sample
  let bs := max a.shape.batch_size b.shape.batch_size
  let skip_a := (if 1 < a.shape.batch_size then 1 else 0) * size
  let skip_b := (if 1 < b.shape.batch_size then 1 else 0) * size
  ⟨a.shape.resize_batch bs,
   rangeMap (bs * size) (fun t =>
     a.el ((t / size) * skip_a + t % size) - b.el ((t / size) * skip_b + t % size))⟩

/-- Embeds the tensor/tensor overload of `CPUDevice::multiply_impl`
(src/primitiv/cpu_device.cc:244-262), identical in structure to `add_impl`. -/
def multiply_impl (a b : Tensor) : Tensor :=
  let size := a.shape.num_elements_per_sample
  let bs := max a.shape.batch_size b.shape.batch_size
  let skip_a := (if 1 < a.shape.batch_size then 1 else 0) * size
  let skip_b := (if 1 < b.shape.batch_size then 1 else 0) * size
  ⟨a.shape.resize_batch bs,
   rangeMap (bs * size) (fun t =>
     a.el ((t / size) * skip_a + t % size) * b.el ((t / size) * skip_b + t % size))⟩

/-- Embeds the tensor/tensor overload of `CPUDevice::divide_impl`
(src/primitiv/cpu_device.cc:282-300), identical in structure to `add_impl`. -/
def divide_impl (a b : Tensor) : Tensor :=
  let size := a.shape.num_elements_per_sample
  let bs := max a.shape.batch_size b.shape.batch_size
  let skip_a := (if 1 < a.shape.batch_size then 1 else 0) * size
  let skip_b := (if 1 < b.shape.batch_size then 1 else 0) * size
  ⟨a.shape.resize_batch bs,
   rangeMap (bs * size) (fun t =>
     a.el ((t / size) * skip_a + t % size) / b.el ((t / size) * skip_b + t % size))⟩

/-- Embeds `CPUDevice::dot_impl` (src/primitiv/cpu_device.cc:328-358): batched 2-D
matrix product; within batch `b`, dest cell `i + k*d1` accumulates
`Σ_j src_a[i + j*d1] * src_b[j + k*d2]`; the per-batch source shift is 0 for an
operand of batch 1; flat dest index `t = b*(d1*d3) + k*d1 + i`. -/
def dot_impl (a b : Tensor) : Tensor :=
  let d1 := a.shape.dim 0
  let d2 := a.shape.dim 1
  let d3 := b.shape.dim 1
  let bs := max a.shape.batch_size b.shape.batch_size
  let sa_shift := (if 1 < a.shape.batch_size then 1 else 0) * (d1 * d2)
  let sb_shift := (if 1 < b.shape.batch_size then 1 else 0) * (d2 * d3)
  ⟨⟨[d1, d3], bs⟩,
   rangeMap (bs * (d1 * d3)) (fun t =>
     ((List.range d2).map (fun j =>
       a.el ((t / (d1 * d3)) * sa_shift + (t % (d1 * d3)) % d1 + j * d1) *
       b.el ((t / (d1 * d3)) * sb_shift + j + ((t % (d1 * d3)) / d1) * d2))).sum)⟩

/-- Embeds `CPUDevice::add_gradient_impl` (src/primitiv/cpu_device.cc:446-460):
over `bs = max` batch iterations, iteration `kk` adds the `size` src cells starting
at `kk*b_skip_s` onto the dst cells starting at `kk*b_skip_d`, either stride being 0
for an operand of batch size 1.  The in-place mutation is modelled by returning the
final dst storage: cell `t` accumulates every contribution the loop writes there. -/
def add_gradient_impl (a b : Tensor) : Tensor :=
  let size := a.shape.num_elements_per_sample
  let bs := max a.shape.batch_size b.shape.batch_size
  let b_skip_d := (if 1 < a.shape.batch_size then 1 else 0) * size
  let b_skip_s := (if 1 < b.shape.batch_size then 1 else 0) * size
  ⟨a.shape,
   rangeMap a.shape.num_total_elements (fun t =>
     a.el t + ((List.range bs).map (fun kk =>
       if kk * b_skip_d ≤ t ∧ t < kk * b_skip_d + size
       then b.el (kk * b_skip_s + (t - kk * b_skip_d)) else 0)).sum)⟩

/-- The device block registry `blocks_` of CPUDevice: an association of the live
storage handles (abstract malloc addresses) to their byte sizes. -/
abbrev Registry := List (Nat × Nat)

/-- Embeds `CPUDevice::new_handle` (src/primitiv/cpu_device.cc:31-39) on the
successful-allocation path: `malloc` returned the address `h`, and
`blocks_.insert` records it with `sizeof(float) * num_total_elements` bytes,
`sizeof(float)` being 4. -/
def new_handle (r : Registry) (shape : Shape) (h : Nat) : Registry :=
  (h, 4 * shape.num_total_elements) :: r

/-- Embeds `CPUDevice::delete_tensor_impl` (src/primitiv/cpu_device.cc:41-49):
find the handle in `blocks_`; an unknown handle raises, a known one has its entry
erased and its block freed. -/
def delete_tensor_impl (r : Registry) (h : Nat) : Except String Registry :=
  if (r.lookup h).isSome
  then .ok (r.eraseP (fun kv => kv.fst == h))
  else .error "Attempted to dispose unknown memory block"

/-- Embeds the leak check of `CPUDevice::~CPUDevice`
(src/primitiv/cpu_device.cc:19-29): destruction aborts with a leak report exactly
when `blocks_` is non-empty. -/
def destructor_aborts (r : Registry) : Bool := !r.isEmpty

/-- One storage-lifecycle call on the device: a successful allocation (carrying
the address malloc returned) or a tensor disposal. -/
inductive DeviceOp
| alloc (h : Nat) (shape : Shape)
| dispose (h : Nat)

/-- Runs one storage-lifecycle call against the registry. -/
def device_step (r : Registry) : DeviceOp → Except String Registry
  | .alloc h shape => .ok (new_handle r shape h)
  | .dispose h => delete_tensor_impl r h

/-- Runs a sequence of storage-lifecycle calls, stopping at the first error. -/
def device_run (r : Registry) : List DeviceOp → Except String Registry
  | [] => .ok r
  | op :: rest =>
      match device_step r op with
      | .ok r' => device_run r' rest
      | .error e => .error e

/-- Multiset of the addresses allocated along a trace. -/
def alloc_keys : List DeviceOp → Multiset Nat
  | [] => 0
  | .alloc h _ :: rest => h ::ₘ alloc_keys rest
  | .dispose _ :: rest => alloc_keys rest

/-- Multiset of the addresses disposed along a trace. -/
def dispose_keys : List DeviceOp → Multiset Nat
  | [] => 0
  | .alloc _ _ :: rest => dispose_keys rest
  | .dispose h :: rest => h ::ₘ dispose_keys rest

/-- Multiset of the handles currently held in the registry. -/
def reg_keys (r : Registry) : Multiset Nat := (r.map Prod.fst : List Nat)

/-- Modelled from the spec: `primitiv/error.h` is not under `src/`; spec §7
discriminates the raised error kinds, `NotImplemented` covering optional device
operations such as broadcast on the reference backend. -/
inductive DeviceErr
| InvalidArgument (msg : String)
| ResourceExhausted (msg : String)
| InvalidState (msg : String)
| NotImplemented (msg : String)
deriving DecidableEq, Repr

/-- Embeds `CPUDevice::broadcast_impl` (src/primitiv/cpu_device.cc:426-428): the
body is a bare throw executed before anything else, so the call raises for every
input, allocates nothing and returns no tensor; the registry is threaded
explicitly to express that it is untouched. -/
def broadcast_impl (r : Registry) (x : Tensor) (dim : Nat) :
    Except DeviceErr (Tensor × Registry) :=
  .error (.NotImplemented "not implemented")

/-- Embeds `CPUDevice::slice_impl` (src/primitiv/cpu_device.cc:105-121): with
`base = new_shape.num_elements_under_rank(dim)`, `span = base * new_shape[dim]`,
`skip = base * x.shape[dim]` and `repeat = new_shape.num_total_elements / span`,
the loops copy, for `i < repeat`, `span` consecutive src cells starting at
`base*offset + i*skip` to the next `span` dest cells: dest cell `t = i*span + j`
reads `src[base*offset + (t/span)*skip + t%span]`. -/
def slice_impl (x : Tensor) (dim offset : Nat) (new_shape : Shape) : Tensor :=
  let base := new_shape.num_elements_under_rank dim
  let span := base * new_shape.dim dim
  let skip := base * x.shape.dim dim
  let rep := new_shape.num_total_elements / span
  ⟨new_shape,
   rangeMap (rep * span) (fun t =>
     x.el (base * offset + (t / span) * skip + t % span))⟩

/-- Embeds `CPUDevice::concat_impl` (src/primitiv/cpu_device.cc:123-151): with
`base = new_shape.num_elements_under_rank(dim)`, `skip = base * new_shape[dim]`
and `repeat = new_shape.num_elements_per_sample / skip`, the loops write, for
every batch entry `b < new_bs`, block `i < repeat` and input `x` in order, the
`span = base * x.shape[dim]` src cells starting at `b*b_skip + i*span` (stride
`b_skip = span*repeat`, or 0 for an input of batch 1) to the dest cells starting
at `off_x + b*repeat*skip + i*skip`, `off_x` being the sum of the spans of the
previous inputs.  Since the spans of the inputs sum to `skip` whenever the shapes
are consistent — which the caller guarantees — that cell sequence is the in-order
concatenation of the per-(batch, block, input) chunks, which is how it is built
here. -/
def concat_impl (xs : List Tensor) (dim : Nat) (new_shape : Shape) : Tensor :=
  let base := new_shape.num_elements_under_rank dim
  let skip := base * new_shape.dim dim
  let rep := new_shape.num_elements_per_sample / skip
  ⟨new_shape,
   (List.range new_shape.batch_size).flatMap (fun b =>
     (List.range rep).flatMap (fun i =>
       xs.flatMap (fun x =>
         rangeMap (base * x.shape.dim dim) (fun j =>
           x.el (b * ((if 1 < x.shape.batch_size then 1 else 0)
               * (base * x.shape.dim dim) * rep)
             + i * (base * x.shape.dim dim) + j)))))⟩

/-- The offset/length pieces of a partition are consecutive starting at `o`: each
piece begins where the previous one ended. -/
def consecutive : Nat → List (Nat × Nat) → Prop
  | _, [] => True
  | o, q :: rest => q.fst = o ∧ consecutive (o + q.snd) rest

theorem rangeMap_length (n : Nat) (f : Nat → ℚ) : (rangeMap n f).length = n := by
  simp [rangeMap]

theorem rangeMap_getD (n : Nat) (f : Nat → ℚ) (i : Nat) (hi : i < n) :
    (rangeMap n f).getD i 0 = f i := by
  have hlen : i < (rangeMap n f).length := by simpa [rangeMap_length] using hi
  rw [List.getD_eq_getElem?_getD, List.getElem?_eq_getElem hlen]
  simp [rangeMap]

theorem getD_eq_getElem_of_lt (l : List ℚ) (i : Nat) (hi : i < l.length) :
    l.getD i 0 = l[i] := by
  rw [List.getD_eq_getElem?_getD, List.getElem?_eq_getElem hi]
  rfl

/-- C5: with `lo < hi` and every raw draw in `[lo, hi)` (the contract of
`std::uniform_real_distribution`), every element of the uniform random kernel's
output is strictly greater than `lo` and at most `hi`; a draw equal to `lo` is
replaced by `hi` and any other draw is stored unaltered. -/
theorem random_uniform_bounds (shape : Shape) (lower upper : ℚ) (draws : Nat → ℚ)
    (hlt : lower < upper) (hdraws : ∀ i, lower ≤ draws i ∧ draws i < upper)
    (i : Nat) (hi : i < shape.num_total_elements) :
    lower < (random_uniform_impl shape lower upper draws).el i ∧
    (random_uniform_impl shape lower upper draws).el i ≤ upper ∧
    (draws i = lower → (random_uniform_impl shape lower upper draws).el i = upper) ∧
    (draws i ≠ lower → (random_uniform_impl shape lower upper draws).el i = draws i) := by
  have hel : (random_uniform_impl shape lower upper draws).el i
      = if draws i = lower then upper else draws i := by
    unfold random_uniform_impl Tensor.el
    exact rangeMap_getD _ _ i hi
  rw [hel]
  rcases hdraws i with ⟨hlo, hhi⟩
  by_cases h : draws i = lower
  · simp [h, hlt, le_of_lt hlt]
  · have : lower < draws i := lt_of_le_of_ne hlo (fun e => h e.symm)
    simp [h, this, le_of_lt hhi]

theorem random_uniform_bounds_witness :
    (0 : ℚ) < 1 ∧
    (0 : ℚ) < (random_uniform_impl ⟨[1], 1⟩ 0 1 (fun _ => 0)).el 0 ∧
    (random_uniform_impl ⟨[1], 1⟩ 0 1 (fun _ => 0)).el 0 = 1 := by
  have h := random_uniform_bounds ⟨[1], 1⟩ 0 1 (fun _ => 0) (by norm_num)
    (fun i => by norm_num) 0
    (by simp [Shape.num_total_elements, Shape.num_elements_per_sample])
  exact ⟨by norm_num, h.1, h.2.2.1 rfl⟩

/-- C6: for every input tensor and element index, `relu(x)[i] ≥ 0`,
`relu(x)[i] = 0 ↔ x[i] ≤ 0`, and `step(x)[i] ∈ {0, 1}` with value 1 exactly when
`x[i] > 0`. -/
theorem relu_step_props (x : Tensor) (i : Nat)
    (hi : i < x.shape.num_total_elements) :
    0 ≤ (relu_impl x).el i ∧
    ((relu_impl x).el i = 0 ↔ x.el i ≤ 0) ∧
    ((step_impl x).el i = 0 ∨ (step_impl x).el i = 1) ∧
    ((step_impl x).el i = 1 ↔ 0 < x.el i) := by
  have hr : (relu_impl x).el i = max (x.el i) 0 := by
    unfold relu_impl Tensor.el
    exact rangeMap_getD _ _ i hi
  have hs : (step_impl x).el i = if 0 < x.el i then 1 else 0 := by
    unfold step_impl Tensor.el
    exact rangeMap_getD _ _ i hi
  refine ⟨by rw [hr]; exact le_max_right _ _, by rw [hr]; exact max_eq_right_iff, ?_, ?_⟩
  · rw [hs]; by_cases h : 0 < x.el i <;> simp [h]
  · rw [hs]; by_cases h : 0 < x.el i <;> simp [h]

theorem relu_step_props_witness :
    0 < (⟨⟨[1], 1⟩, [(3 : ℚ)]⟩ : Tensor).shape.num_total_elements ∧
    0 ≤ (relu_impl ⟨⟨[1], 1⟩, [(3 : ℚ)]⟩).el 0 ∧
    (step_impl ⟨⟨[1], 1⟩, [(3 : ℚ)]⟩).el 0 = 1 := by
  have h0 : (0 : Nat) < (⟨⟨[1], 1⟩, [(3 : ℚ)]⟩ : Tensor).shape.num_total_elements := by
    simp [Shape.num_total_elements, Shape.num_elements_per_sample]
  have h := relu_step_props ⟨⟨[1], 1⟩, [(3 : ℚ)]⟩ 0 h0
  refine ⟨h0, h.1, h.2.2.2.mpr ?_⟩
  show (0 : ℚ) < ([(3 : ℚ)].getD 0 0)
  norm_num

/-- C10: for every shape and probability, the Bernoulli random kernel returns a
tensor carrying the requested shape, with exactly `num_total_elements` stored
cells, every one of which is exactly 0 or exactly 1. -/
theorem random_bernoulli_zero_one (shape : Shape) (p : ℚ) (draws : Nat → Bool) :
    (random_bernoulli_impl shape p draws).shape = shape ∧
    (random_bernoulli_impl shape p draws).values.length = shape.num_total_elements ∧
    ∀ v ∈ (random_bernoulli_impl shape p draws).values, v = 0 ∨ v = 1 := by
  refine ⟨rfl, rangeMap_length _ _, ?_⟩
  intro v hv
  unfold random_bernoulli_impl rangeMap at hv
  rcases List.mem_map.1 hv with ⟨j, _, hj⟩
  by_cases h : draws j
  · right; rw [← hj]; simp [h]
  · left; rw [← hj]; simp [h]

theorem random_bernoulli_zero_one_witness :
    (1 : ℚ) ∈ (random_bernoulli_impl ⟨[1], 1⟩ (1/2) (fun _ => true)).values ∧
    ((1 : ℚ) = 0 ∨ (1 : ℚ) = 1) := by
  have hm : (1 : ℚ) ∈ (random_bernoulli_impl ⟨[1], 1⟩ (1/2) (fun _ => true)).values := by
    simp [random_bernoulli_impl, rangeMap, Shape.num_total_elements,
      Shape.num_elements_per_sample, List.range_succ]
  exact ⟨hm, (random_bernoulli_zero_one ⟨[1], 1⟩ (1/2) (fun _ => true)).2.2 1 hm⟩

/-- Dropping trailing unit axes does not change the element count, so two
broadcast-compatible shapes have equal elements-per-sample. -/
theorem canonical_prod (s : Shape) : s.canonical.prod = s.dims.prod := by
  unfold Shape.canonical
  rw [List.prod_reverse]
  have hsplit := List.takeWhile_append_dropWhile (fun x => x == 1) s.dims.reverse
  have h1 : (s.dims.reverse.takeWhile (fun x => x == 1)).prod = 1 := by
    apply List.prod_eq_one
    intro x hx
    have := List.mem_takeWhile_imp hx
    simpa using this
  calc (s.dims.reverse.dropWhile (fun x => x == 1)).prod
      = (s.dims.reverse.takeWhile (fun x => x == 1)).prod *
        (s.dims.reverse.dropWhile (fun x => x == 1)).prod := by rw [h1, one_mul]
    _ = (s.dims.reverse.takeWhile (fun x => x == 1) ++
        s.dims.reverse.dropWhile (fun x => x == 1)).prod := (List.prod_append).symm
    _ = s.dims.reverse.prod := by rw [hsplit]
    _ = s.dims.prod := List.prod_reverse _

theorem broadcast_compatible_size_eq (sa sb : Shape)
    (hc : Shape.broadcast_compatible sa sb) :
    sa.num_elements_per_sample = sb.num_elements_per_sample := by
  unfold Shape.num_elements_per_sample
  rw [← canonical_prod sa, ← canonical_prod sb, hc.1]

/-- C1: on the 2x2 column-major inputs [1,2,3,4] and [5,6,7,8] with batch 1, the
device matrix product has shape {2,2} and `to_vector` value sequence
[23, 34, 31, 46]. -/
theorem dot_concrete :
    tensor_to_vector_impl
        (dot_impl ⟨⟨[2, 2], 1⟩, [1, 2, 3, 4]⟩ ⟨⟨[2, 2], 1⟩, [5, 6, 7, 8]⟩)
      = [23, 34, 31, 46] ∧
    (dot_impl ⟨⟨[2, 2], 1⟩, [1, 2, 3, 4]⟩ ⟨⟨[2, 2], 1⟩, [5, 6, 7, 8]⟩).shape
      = ⟨[2, 2], 1⟩ := by
  constructor
  · norm_num [tensor_to_vector_impl, dot_impl, Tensor.el, Shape.dim, Shape.batch_size,
      Shape.num_total_elements, Shape.num_elements_per_sample, rangeMap,
      List.range_succ]
  · rfl

/-- C3: for broadcast-compatible inputs the four elementwise tensor/tensor kernels
return tensors whose batch size is max(batch_a, batch_b) and whose per-sample
extents are a's, and whose element at per-sample index `i` of batch entry `k` is
the operation applied to the operands' elements (i, k), an operand of batch size 1
contributing its single sample (per-batch stride 0) for every `k`. -/
theorem elementwise_broadcast (a b : Tensor)
    (hc : Shape.broadcast_compatible a.shape b.shape)
    (hba : 0 < a.shape.batch_size) (hbb : 0 < b.shape.batch_size)
    (i k : Nat) (hi : i < a.shape.num_elements_per_sample)
    (hk : k < max a.shape.batch_size b.shape.batch_size) :
    ((add_impl a b).shape
        = a.shape.resize_batch (max a.shape.batch_size b.shape.batch_size) ∧
     (subtract_impl a b).shape
        = a.shape.resize_batch (max a.shape.batch_size b.shape.batch_size) ∧
     (multiply_impl a b).shape
        = a.shape.resize_batch (max a.shape.batch_size b.shape.batch_size) ∧
     (divide_impl a b).shape
        = a.shape.resize_batch (max a.shape.batch_size b.shape.batch_size)) ∧
    (add_impl a b).sample_el i k =
      a.sample_el i (if a.shape.batch_size = 1 then 0 else k) +
      b.sample_el i (if b.shape.batch_size = 1 then 0 else k) ∧
    (subtract_impl a b).sample_el i k =
      a.sample_el i (if a.shape.batch_size = 1 then 0 else k) -
      b.sample_el i (if b.shape.batch_size = 1 then 0 else k) ∧
    (multiply_impl a b).sample_el i k =
      a.sample_el i (if a.shape.batch_size = 1 then 0 else k) *
      b.sample_el i (if b.shape.batch_size = 1 then 0 else k) ∧
    (divide_impl a b).sample_el i k =
      a.sample_el i (if a.shape.batch_size = 1 then 0 else k) /
      b.sample_el i (if b.shape.batch_size = 1 then 0 else k) := by
  have hsz : b.shape.num_elements_per_sample = a.shape.num_elements_per_sample :=
    (broadcast_compatible_size_eq _ _ hc).symm
  have hsize_pos : 0 < a.shape.num_elements_per_sample :=
    lt_of_le_of_lt (Nat.zero_le i) hi
  have ht : k * a.shape.num_elements_per_sample + i
      < (max a.shape.batch_size b.shape.batch_size) * a.shape.num_elements_per_sample := by
    calc k * a.shape.num_elements_per_sample + i
        < (k + 1) * a.shape.num_elements_per_sample := by
          rw [Nat.add_mul, Nat.one_mul]; omega
      _ ≤ (max a.shape.batch_size b.shape.batch_size) * a.shape.num_elements_per_sample :=
          Nat.mul_le_mul_right _ hk
  have hdiv : (k * a.shape.num_elements_per_sample + i) / a.shape.num_elements_per_sample
      = k := by
    rw [Nat.add_comm, Nat.add_mul_div_right _ _ hsize_pos, Nat.div_eq_of_lt hi,
      Nat.zero_add]
  have hmod : (k * a.shape.num_elements_per_sample + i) % a.shape.num_elements_per_sample
      = i := by
    rw [Nat.add_comm, Nat.add_mul_mod_self_right, Nat.mod_eq_of_lt hi]
  have hia : k * ((if 1 < a.shape.batch_size then 1 else 0) * a.shape.num_elements_per_sample)
      + i = (if a.shape.batch_size = 1 then 0 else k) * a.shape.num_elements_per_sample + i := by
    rcases Nat.lt_or_ge 1 a.shape.batch_size with h | h
    · have h' : ¬ a.shape.batch_size = 1 := by omega
      simp [h, h']
    · have h' : a.shape.batch_size = 1 := by omega
      simp [h']
  have hib : k * ((if 1 < b.shape.batch_size then 1 else 0) * a.shape.num_elements_per_sample)
      + i = (if b.shape.batch_size = 1 then 0 else k) * b.shape.num_elements_per_sample + i := by
    rw [hsz]
    rcases Nat.lt_or_ge 1 b.shape.batch_size with h | h
    · have h' : ¬ b.shape.batch_size = 1 := by omega
      simp [h, h']
    · have h' : b.shape.batch_size = 1 := by omega
      simp [h']
  have hval : ∀ g : ℚ → ℚ → ℚ,
      (rangeMap ((max a.shape.batch_size b.shape.batch_size)
          * a.shape.num_elements_per_sample) (fun t =>
        g (a.el ((t / a.shape.num_elements_per_sample)
              * ((if 1 < a.shape.batch_size then 1 else 0)
                * a.shape.num_elements_per_sample)
            + t % a.shape.num_elements_per_sample))
          (b.el ((t / a.shape.num_elements_per_sample)
              * ((if 1 < b.shape.batch_size then 1 else 0)
                * a.shape.num_elements_per_sample)
            + t % a.shape.num_elements_per_sample)))).getD
        (k * a.shape.num_elements_per_sample + i) 0
      = g (a.sample_el i (if a.shape.batch_size = 1 then 0 else k))
          (b.sample_el i (if b.shape.batch_size = 1 then 0 else k)) := by
    intro g
    rw [rangeMap_getD _ _ _ ht, hdiv, hmod, hia, hib]
    rfl
  refine ⟨⟨rfl, rfl, rfl, rfl⟩, ?_, ?_, ?_, ?_⟩
  · exact hval (fun u v => u + v)
  · exact hval (fun u v => u - v)
  · exact hval (fun u v => u * v)
  · exact hval (fun u v => u / v)

theorem elementwise_broadcast_witness :
    Shape.broadcast_compatible (⟨[2], 1⟩ : Shape) (⟨[2], 2⟩ : Shape) ∧
    (add_impl ⟨⟨[2], 1⟩, [1, 2]⟩ ⟨⟨[2], 2⟩, [10, 20, 30, 40]⟩).sample_el 0 1
      = (⟨⟨[2], 1⟩, [1, 2]⟩ : Tensor).sample_el 0 0 +
        (⟨⟨[2], 2⟩, [10, 20, 30, 40]⟩ : Tensor).sample_el 0 1 := by
  have hcomp : Shape.broadcast_compatible (⟨[2], 1⟩ : Shape) (⟨[2], 2⟩ : Shape) := by
    constructor
    · rfl
    · right; left; rfl
  have h := elementwise_broadcast ⟨⟨[2], 1⟩, [1, 2]⟩ ⟨⟨[2], 2⟩, [10, 20, 30, 40]⟩
    hcomp (by norm_num [Shape.batch_size]) (by norm_num [Shape.batch_size]) 0 1
    (by norm_num [Shape.num_elements_per_sample])
    (by norm_num [Shape.batch_size])
  have h2 := h.2.1
  norm_num [Shape.batch_size] at h2
  exact ⟨hcomp, h2⟩

theorem add_gradient_el (a b : Tensor) (t : Nat)
    (ht : t < a.shape.num_total_elements) :
    (add_gradient_impl a b).el t
      = a.el t + ((List.range (max a.shape.batch_size b.shape.batch_size)).map
          (fun kk =>
            if kk * ((if 1 < a.shape.batch_size then 1 else 0)
                  * a.shape.num_elements_per_sample) ≤ t ∧
               t < kk * ((if 1 < a.shape.batch_size then 1 else 0)
                  * a.shape.num_elements_per_sample)
                 + a.shape.num_elements_per_sample
            then b.el (kk * ((if 1 < b.shape.batch_size then 1 else 0)
                  * a.shape.num_elements_per_sample)
              + (t - kk * ((if 1 < a.shape.batch_size then 1 else 0)
                  * a.shape.num_elements_per_sample)))
            else 0)).sum := by
  unfold add_gradient_impl Tensor.el
  exact rangeMap_getD _ _ t ht

theorem hit_interval_iff (size i j k : Nat) (hi : i < size) :
    (j * size ≤ k * size + i ∧ k * size + i < j * size + size) ↔ j = k := by
  constructor
  · rintro ⟨h1, h2⟩
    by_contra hne
    rcases lt_or_gt_of_ne hne with h | h
    · have hstep : j * size + size ≤ k * size := by
        calc j * size + size = (j + 1) * size := by ring
          _ ≤ k * size := Nat.mul_le_mul_right _ h
      have : k * size + i < k * size := lt_of_lt_of_le h2 hstep
      exact absurd (lt_of_le_of_lt (Nat.le_add_right _ i) this) (lt_irrefl _)
    · have hstep : k * size + size ≤ j * size := by
        calc k * size + size = (k + 1) * size := by ring
          _ ≤ j * size := Nat.mul_le_mul_right _ h
      have : j * size < j * size :=
        lt_of_le_of_lt h1 (lt_of_lt_of_le (Nat.add_lt_add_left hi _) hstep)
      exact absurd this (lt_irrefl _)
  · rintro rfl
    refine ⟨Nat.le_add_right _ _, ?_⟩
    exact Nat.add_lt_add_left hi _

theorem sum_map_range_single (n : Nat) (g : Nat → ℚ) (k : Nat) (hk : k < n) :
    ((List.range n).map (fun j => if j = k then g j else 0)).sum = g k := by
  induction n with
  | zero => omega
  | succ m ih =>
    rw [List.range_succ, List.map_append, List.sum_append]
    by_cases h : k = m
    · subst h
      have hz : ((List.range k).map (fun j => if j = k then g j else 0)).sum = 0 := by
        apply List.sum_eq_zero
        intro x hx
        rcases List.mem_map.1 hx with ⟨j, hj, hxe⟩
        have hjk : j < k := List.mem_range.1 hj
        rw [← hxe]
        simp [Nat.ne_of_lt hjk]
      simp [hz]
    · have hk' : k < m := by omega
      have hm : ¬ (m = k) := fun e => h e.symm
      rw [ih hk']
      simp [hm]

/-- C4: add_gradient keeps dst's shape; with equal batch sizes it adds src
elementwise into dst; with dst batch 1 it adds the sum over src's batch samples
into dst's single sample; with src batch 1 it adds src's single sample into every
batch entry of dst. -/
theorem add_gradient_broadcast (a b : Tensor)
    (hc : Shape.broadcast_compatible a.shape b.shape)
    (hba : 0 < a.shape.batch_size) (hbb : 0 < b.shape.batch_size) :
    (add_gradient_impl a b).shape = a.shape ∧
    (a.shape.batch_size = b.shape.batch_size →
      ∀ k, k < a.shape.batch_size → ∀ i, i < a.shape.num_elements_per_sample →
        (add_gradient_impl a b).sample_el i k = a.sample_el i k + b.sample_el i k) ∧
    (a.shape.batch_size = 1 →
      ∀ i, i < a.shape.num_elements_per_sample →
        (add_gradient_impl a b).el i = a.el i +
          ((List.range b.shape.batch_size).map (fun kk => b.sample_el i kk)).sum) ∧
    (b.shape.batch_size = 1 →
      ∀ k, k < a.shape.batch_size → ∀ i, i < a.shape.num_elements_per_sample →
        (add_gradient_impl a b).sample_el i k = a.sample_el i k + b.sample_el i 0) := by
  have hsz : b.shape.num_elements_per_sample = a.shape.num_elements_per_sample :=
    (broadcast_compatible_size_eq _ _ hc).symm
  have htot : ∀ k i, k < a.shape.batch_size → i < a.shape.num_elements_per_sample →
      k * a.shape.num_elements_per_sample + i < a.shape.num_total_elements := by
    intro k i hk hi
    unfold Shape.num_total_elements
    calc k * a.shape.num_elements_per_sample + i
        < (k + 1) * a.shape.num_elements_per_sample := by
          rw [Nat.add_mul, Nat.one_mul]; omega
      _ ≤ a.shape.batch_size * a.shape.num_elements_per_sample :=
          Nat.mul_le_mul_right _ hk
      _ = a.shape.num_elements_per_sample * a.shape.batch_size := Nat.mul_comm _ _
  refine ⟨rfl, ?_, ?_, ?_⟩
  · -- equal batch sizes
    intro heq k hk i hi
    show (add_gradient_impl a b).el (k * a.shape.num_elements_per_sample + i)
        = a.el (k * a.shape.num_elements_per_sample + i)
          + b.el (k * b.shape.num_elements_per_sample + i)
    rw [add_gradient_el a b _ (htot k i hk hi), hsz]
    congr 1
    rcases Nat.lt_or_ge 1 a.shape.batch_size with hgt | hle
    · -- batch > 1 on both sides
      have hgtb : 1 < b.shape.batch_size := by omega
      have hmax : max a.shape.batch_size b.shape.batch_size = a.shape.batch_size := by
        rw [← heq, Nat.max_self]
      rw [hmax]
      have hcong : ∀ kk ∈ List.range a.shape.batch_size,
          (if kk * ((if 1 < a.shape.batch_size then 1 else 0)
                * a.shape.num_elements_per_sample)
                ≤ k * a.shape.num_elements_per_sample + i ∧
              k * a.shape.num_elements_per_sample + i
                < kk * ((if 1 < a.shape.batch_size then 1 else 0)
                    * a.shape.num_elements_per_sample)
                  + a.shape.num_elements_per_sample
           then b.el (kk * ((if 1 < b.shape.batch_size then 1 else 0)
                * a.shape.num_elements_per_sample)
             + (k * a.shape.num_elements_per_sample + i
                - kk * ((if 1 < a.shape.batch_size then 1 else 0)
                    * a.shape.num_elements_per_sample)))
           else 0)
          = (if kk = k
             then b.el (kk * a.shape.num_elements_per_sample
               + (k * a.shape.num_elements_per_sample + i
                  - kk * a.shape.num_elements_per_sample))
             else 0) := by
        intro kk _
        rw [if_pos hgt, if_pos hgtb, Nat.one_mul]
        by_cases hhit : kk = k
        · rw [if_pos ((hit_interval_iff _ i kk k hi).2 hhit), if_pos hhit]
        · rw [if_neg (fun hcon => hhit ((hit_interval_iff _ i kk k hi).1 hcon)),
            if_neg hhit]
      rw [List.map_congr_left hcong, sum_map_range_single _ _ k hk]
      congr 1
      omega
    · -- both batches are 1
      have ha1 : a.shape.batch_size = 1 := by omega
      have hb1 : b.shape.batch_size = 1 := by omega
      have hk0 : k = 0 := by omega
      subst hk0
      rw [ha1, hb1]
      simp [List.range_succ, hi]
  · -- dst batch 1: accumulate the sum over src samples
    intro ha1 i hi
    have hitot : i < a.shape.num_total_elements := by
      have := htot 0 i (by omega) hi
      simpa using this
    rw [add_gradient_el a b i hitot]
    congr 1
    have hmax : max a.shape.batch_size b.shape.batch_size = b.shape.batch_size := by
      rw [ha1]
      exact Nat.max_eq_right hbb
    rw [hmax]
    have hcong : ∀ kk ∈ List.range b.shape.batch_size,
        (if kk * ((if 1 < a.shape.batch_size then 1 else 0)
              * a.shape.num_elements_per_sample) ≤ i ∧
            i < kk * ((if 1 < a.shape.batch_size then 1 else 0)
                * a.shape.num_elements_per_sample)
              + a.shape.num_elements_per_sample
         then b.el (kk * ((if 1 < b.shape.batch_size then 1 else 0)
              * a.shape.num_elements_per_sample)
           + (i - kk * ((if 1 < a.shape.batch_size then 1 else 0)
                * a.shape.num_elements_per_sample)))
         else 0)
        = b.sample_el i kk := by
      intro kk hkk
      rw [ha1]
      simp only [Nat.lt_irrefl, if_false, Nat.zero_mul, Nat.mul_zero,
        Nat.zero_add, Nat.zero_le, Nat.sub_zero, true_and]
      rw [if_pos hi]
      show b.el (kk * ((if 1 < b.shape.batch_size then 1 else 0)
          * a.shape.num_elements_per_sample) + i)
        = b.el (kk * b.shape.num_elements_per_sample + i)
      rcases Nat.lt_or_ge 1 b.shape.batch_size with hgt | hle
      · rw [if_pos hgt, Nat.one_mul, hsz]
      · have hkk0 : kk = 0 := by
          have := List.mem_range.1 hkk
          omega
        subst hkk0
        simp
    exact congrArg List.sum (List.map_congr_left hcong)
  · -- src batch 1: add the single src sample into every dst batch entry
    intro hb1 k hk i hi
    show (add_gradient_impl a b).el (k * a.shape.num_elements_per_sample + i)
        = a.el (k * a.shape.num_elements_per_sample + i)
          + b.el (0 * b.shape.num_elements_per_sample + i)
    rw [add_gradient_el a b _ (htot k i hk hi)]
    congr 1
    have hmax : max a.shape.batch_size b.shape.batch_size = a.shape.batch_size := by
      rw [hb1]
      exact Nat.max_eq_left hba
    rw [hmax]
    rcases Nat.lt_or_ge 1 a.shape.batch_size with hgt | hle
    · have hcong : ∀ kk ∈ List.range a.shape.batch_size,
          (if kk * ((if 1 < a.shape.batch_size then 1 else 0)
                * a.shape.num_elements_per_sample)
                ≤ k * a.shape.num_elements_per_sample + i ∧
              k * a.shape.num_elements_per_sample + i
                < kk * ((if 1 < a.shape.batch_size then 1 else 0)
                    * a.shape.num_elements_per_sample)
                  + a.shape.num_elements_per_sample
           then b.el (kk * ((if 1 < b.shape.batch_size then 1 else 0)
                * a.shape.num_elements_per_sample)
             + (k * a.shape.num_elements_per_sample + i
                - kk * ((if 1 < a.shape.batch_size then 1 else 0)
                    * a.shape.num_elements_per_sample)))
           else 0)
          = (if kk = k
             then b.el (k * a.shape.num_elements_per_sample + i
                - kk * a.shape.num_elements_per_sample)
             else 0) := by
        intro kk _
        rw [if_pos hgt, Nat.one_mul, hb1]
        simp only [Nat.lt_irrefl, if_false, Nat.zero_mul]
        by_cases hhit : kk = k
        · rw [if_pos ((hit_interval_iff _ i kk k hi).2 hhit), if_pos hhit]
          rw [Nat.mul_zero, Nat.zero_add]
        · rw [if_neg (fun hcon => hhit ((hit_interval_iff _ i kk k hi).1 hcon)),
            if_neg hhit]
      rw [List.map_congr_left hcong, sum_map_range_single _ _ k hk]
      have hsub : k * a.shape.num_elements_per_sample + i
          - k * a.shape.num_elements_per_sample = i := by omega
      rw [hsub, Nat.zero_mul, Nat.zero_add]
    · have ha1 : a.shape.batch_size = 1 := by omega
      have hk0 : k = 0 := by omega
      subst hk0
      rw [ha1, hb1]
      simp [List.range_succ, hi]

theorem add_gradient_broadcast_witness :
    Shape.broadcast_compatible (⟨[2], 1⟩ : Shape) (⟨[2], 2⟩ : Shape) ∧
    (add_gradient_impl ⟨⟨[2], 1⟩, [1, 2]⟩ ⟨⟨[2], 2⟩, [10, 20, 30, 40]⟩).el 0
      = (⟨⟨[2], 1⟩, [1, 2]⟩ : Tensor).el 0 +
        ((List.range 2).map
          (fun kk => (⟨⟨[2], 2⟩, [10, 20, 30, 40]⟩ : Tensor).sample_el 0 kk)).sum := by
  have hcomp : Shape.broadcast_compatible (⟨[2], 1⟩ : Shape) (⟨[2], 2⟩ : Shape) := by
    constructor
    · rfl
    · right; left; rfl
  have h := add_gradient_broadcast ⟨⟨[2], 1⟩, [1, 2]⟩ ⟨⟨[2], 2⟩, [10, 20, 30, 40]⟩
    hcomp (by norm_num [Shape.batch_size]) (by norm_num [Shape.batch_size])
  exact ⟨hcomp, h.2.2.1 rfl 0 (by norm_num [Shape.num_elements_per_sample])⟩

theorem map_fst_eraseP (r : Registry) (h : Nat) :
    (r.eraseP (fun kv => kv.fst == h)).map Prod.fst
      = (r.map Prod.fst).eraseP (fun k => k == h) := by
  induction r with
  | nil => rfl
  | cons kv rest ih =>
    by_cases hh : kv.fst = h
    · simp [List.eraseP_cons, hh]
    · simp [List.eraseP_cons, hh, ih]

theorem lookup_isSome_mem (r : Registry) (h : Nat)
    (hs : (r.lookup h).isSome) : h ∈ r.map Prod.fst := by
  induction r with
  | nil => simp [List.lookup] at hs
  | cons kv rest ih =>
    by_cases hh : h = kv.fst
    · rw [List.map_cons, hh]
      exact List.mem_cons_self _ _
    · rw [List.map_cons]
      apply List.mem_cons_of_mem
      apply ih
      cases kv with
      | mk k v =>
        have hne : (h == k) = false := beq_false_of_ne hh
        simpa [List.lookup, hne] using hs

theorem reg_keys_eraseP (r : Registry) (h : Nat)
    (hs : (r.lookup h).isSome) :
    reg_keys (r.eraseP (fun kv => kv.fst == h)) = (reg_keys r).erase h := by
  unfold reg_keys
  rw [map_fst_eraseP]
  have herase : (r.map Prod.fst).eraseP (fun k => k == h)
      = (r.map Prod.fst).erase h := by
    rw [List.erase_eq_eraseP']
  rw [herase]
  exact (Multiset.coe_erase _ _).symm

theorem device_run_keys (ops : List DeviceOp) :
    ∀ r r' : Registry, device_run r ops = .ok r' →
      reg_keys r' + dispose_keys ops = reg_keys r + alloc_keys ops := by
  induction ops with
  | nil =>
    intro r r' hrun
    have : r = r' := by
      simpa [device_run] using hrun
    subst this
    simp [alloc_keys, dispose_keys]
  | cons op rest ih =>
    intro r r' hrun
    cases op with
    | alloc h s =>
      have hrest : device_run (new_handle r s h) rest = .ok r' := by
        simpa [device_run, device_step] using hrun
      have hkeys := ih (new_handle r s h) r' hrest
      have hnew : reg_keys (new_handle r s h) = h ::ₘ reg_keys r := by
        simp [new_handle, reg_keys]
      rw [hnew] at hkeys
      simp only [alloc_keys, dispose_keys]
      rw [hkeys]
      rw [Multiset.add_cons, Multiset.cons_add]
    | dispose h =>
      by_cases hmem : (r.lookup h).isSome
      · have hrest : device_run (r.eraseP (fun kv => kv.fst == h)) rest = .ok r' := by
          simpa [device_run, device_step, delete_tensor_impl, hmem] using hrun
        have hkeys := ih _ r' hrest
        rw [reg_keys_eraseP r h hmem] at hkeys
        simp only [alloc_keys, dispose_keys]
        have hin : h ∈ reg_keys r := by
          unfold reg_keys
          exact Multiset.mem_coe.2 (lookup_isSome_mem r h hmem)
        calc reg_keys r' + (h ::ₘ dispose_keys rest)
            = h ::ₘ (reg_keys r' + dispose_keys rest) := by
              rw [Multiset.add_cons]
          _ = h ::ₘ ((reg_keys r).erase h + alloc_keys rest) := by rw [hkeys]
          _ = (h ::ₘ (reg_keys r).erase h) + alloc_keys rest := by
              rw [Multiset.cons_add]
          _ = reg_keys r + alloc_keys rest := by rw [Multiset.cons_erase hin]
      · exfalso
        have : device_run r (DeviceOp.dispose h :: rest) = .error
            "Attempted to dispose unknown memory block" := by
          simp [device_run, device_step, delete_tensor_impl, hmem]
        rw [this] at hrun
        cases hrun

/-- C7: the registry tracks exactly the outstanding storage handles: a successful
allocation inserts exactly one entry keyed by the returned address, a successful
disposal removes exactly the entry of the freed address, a device that disposed
every handle it allocated finishes with an empty registry, and destruction aborts
exactly when the registry is non-empty. -/
theorem registry_tracks :
    (∀ (r : Registry) (s : Shape) (h : Nat),
      new_handle r s h = (h, 4 * s.num_total_elements) :: r) ∧
    (∀ (r : Registry) (h : Nat) (r' : Registry),
      delete_tensor_impl r h = .ok r' →
        h ∈ reg_keys r ∧ reg_keys r' = (reg_keys r).erase h) ∧
    (∀ (ops : List DeviceOp) (r' : Registry),
      device_run [] ops = .ok r' → alloc_keys ops = dispose_keys ops →
        r' = []) ∧
    (∀ r : Registry, destructor_aborts r = true ↔ r ≠ []) := by
  refine ⟨fun r s h => rfl, ?_, ?_, ?_⟩
  · intro r h r' hok
    by_cases hmem : (r.lookup h).isSome
    · have hr' : r' = r.eraseP (fun kv => kv.fst == h) := by
        have : delete_tensor_impl r h = .ok (r.eraseP (fun kv => kv.fst == h)) := by
          simp [delete_tensor_impl, hmem]
        rw [this] at hok
        cases hok
        rfl
      subst hr'
      refine ⟨?_, reg_keys_eraseP r h hmem⟩
      unfold reg_keys
      exact Multiset.mem_coe.2 (lookup_isSome_mem r h hmem)
    · exfalso
      have : delete_tensor_impl r h = .error
          "Attempted to dispose unknown memory block" := by
        simp [delete_tensor_impl, hmem]
      rw [this] at hok
      cases hok
  · intro ops r' hrun hbal
    have hkeys := device_run_keys ops [] r' hrun
    have hnil : reg_keys ([] : Registry) = 0 := rfl
    rw [hnil, zero_add, hbal] at hkeys
    have hzero : reg_keys r' = 0 := by
      have hk2 : reg_keys r' + dispose_keys ops = 0 + dispose_keys ops := by
        rw [zero_add]
        exact hkeys
      exact add_right_cancel hk2
    have hmap : r'.map Prod.fst = [] := by
      have hcoe : ((r'.map Prod.fst : List Nat) : Multiset Nat) = 0 := hzero
      exact (Multiset.coe_eq_zero _).1 hcoe
    exact List.map_eq_nil_iff.1 hmap
  · intro r
    cases r with
    | nil => simp [destructor_aborts]
    | cons kv rest => simp [destructor_aborts]

theorem registry_tracks_witness :
    device_run [] [DeviceOp.alloc 5 ⟨[1], 1⟩, DeviceOp.dispose 5]
      = Except.ok ([] : Registry) ∧
    alloc_keys [DeviceOp.alloc 5 ⟨[1], 1⟩, DeviceOp.dispose 5]
      = dispose_keys [DeviceOp.alloc 5 ⟨[1], 1⟩, DeviceOp.dispose 5] ∧
    ([] : Registry) = [] := by
  have hrun : device_run [] [DeviceOp.alloc 5 ⟨[1], 1⟩, DeviceOp.dispose 5]
      = Except.ok ([] : Registry) := by
    simp [device_run, device_step, new_handle, delete_tensor_impl, List.lookup]
  have hbal : alloc_keys [DeviceOp.alloc 5 ⟨[1], 1⟩, DeviceOp.dispose 5]
      = dispose_keys [DeviceOp.alloc 5 ⟨[1], 1⟩, DeviceOp.dispose 5] := by
    simp [alloc_keys, dispose_keys]
  exact ⟨hrun, hbal, registry_tracks.2.2.1 _ _ hrun hbal⟩

/-- C8: delete_tensor raises exactly when the handle is absent from the registry,
and the failure is atomic: an erroring call yields no successor registry at all in
this state-passing embedding, so the registry the caller holds is unchanged; a
succeeding call erases exactly the found entry. -/
theorem delete_tensor_error_iff (r : Registry) (h : Nat) :
    ((delete_tensor_impl r h).isOk = false ↔ r.lookup h = none) ∧
    (∀ r', delete_tensor_impl r h = .ok r' →
      r' = r.eraseP (fun kv => kv.fst == h)) := by
  constructor
  · by_cases hmem : (r.lookup h).isSome
    · have hok : delete_tensor_impl r h
          = .ok (r.eraseP (fun kv => kv.fst == h)) := by
        simp [delete_tensor_impl, hmem]
      constructor
      · intro hfalse
        rw [hok] at hfalse
        simp [Except.isOk, Except.toBool] at hfalse
      · intro hnone
        rw [hnone] at hmem
        simp at hmem
    · have hno : r.lookup h = none := Option.not_isSome_iff_eq_none.1 hmem
      have herr : delete_tensor_impl r h = .error
          "Attempted to dispose unknown memory block" := by
        simp [delete_tensor_impl, hmem]
      constructor
      · intro _
        exact hno
      · intro _
        rw [herr]
        rfl
  · intro r' hok
    by_cases hmem : (r.lookup h).isSome
    · have : delete_tensor_impl r h = .ok (r.eraseP (fun kv => kv.fst == h)) := by
        simp [delete_tensor_impl, hmem]
      rw [this] at hok
      cases hok
      rfl
    · exfalso
      have : delete_tensor_impl r h = .error
          "Attempted to dispose unknown memory block" := by
        simp [delete_tensor_impl, hmem]
      rw [this] at hok
      cases hok

theorem delete_tensor_error_iff_witness :
    (delete_tensor_impl [] 0).isOk = false ∧ ([] : Registry).lookup 0 = none := by
  refine ⟨(delete_tensor_error_iff [] 0).1.2 rfl, rfl⟩

/-- C9: the broadcast kernel on the reference device raises NotImplemented for
every registry state, input tensor and axis; it never produces an ok result, so
no tensor is returned, no storage is allocated and the registry is unchanged. -/
theorem broadcast_not_implemented (r : Registry) (x : Tensor) (dim : Nat) :
    broadcast_impl r x dim
      = Except.error (DeviceErr.NotImplemented "not implemented") ∧
    (broadcast_impl r x dim).isOk = false := by
  exact ⟨rfl, rfl⟩

theorem rangeMap_add (m n : Nat) (f : Nat → ℚ) :
    rangeMap (m + n) f = rangeMap m f ++ rangeMap n (fun j => f (m + j)) := by
  unfold rangeMap
  rw [List.range_add, List.map_append, List.map_map]
  rfl

theorem flatMap_congr_left (l : List Nat) (f g : Nat → List ℚ)
    (h : ∀ a ∈ l, f a = g a) : l.flatMap f = l.flatMap g := by
  induction l with
  | nil => rfl
  | cons a t ih =>
    rw [List.flatMap_cons, List.flatMap_cons, h a (List.mem_cons_self a t),
      ih (fun c hc => h c (List.mem_cons_of_mem a hc))]

theorem flatMap_range_rangeMap (m k : Nat) (f : Nat → ℚ) :
    (List.range m).flatMap (fun i => rangeMap k (fun j => f (i * k + j)))
      = rangeMap (m * k) f := by
  induction m with
  | zero =>
    rw [Nat.zero_mul]
    rfl
  | succ p ih =>
    rw [List.range_succ, List.flatMap_append, ih, List.flatMap_cons,
      List.flatMap_nil, List.append_nil,
      show (p + 1) * k = p * k + k from by ring, rangeMap_add]

theorem rangeMap_getD_self (l : List ℚ) :
    rangeMap l.length (fun i => l.getD i 0) = l := by
  induction l with
  | nil => rfl
  | cons a t ih =>
    have hcomp : ((fun i => (a :: t).getD i 0) ∘ Nat.succ)
        = fun i => t.getD i 0 := by
      funext i
      simp [List.getD_cons_succ]
    calc rangeMap (a :: t).length (fun i => (a :: t).getD i 0)
        = (a :: t).getD 0 0
            :: (List.range t.length).map ((fun i => (a :: t).getD i 0) ∘ Nat.succ) := by
          unfold rangeMap
          rw [List.length_cons, List.range_succ_eq_map, List.map_cons, List.map_map]
      _ = a :: rangeMap t.length (fun i => t.getD i 0) := by
          rw [hcomp]
          rfl
      _ = a :: t := by rw [ih]

theorem take_set_self (l : List Nat) (i a : Nat) :
    (l.set i a).take i = l.take i := by
  induction l generalizing i with
  | nil => simp
  | cons x xs ih =>
    cases i with
    | zero => simp
    | succ j => simp [List.set_cons_succ, List.take_succ_cons, ih]

theorem drop_succ_set (l : List Nat) (i a : Nat) :
    (l.set i a).drop (i + 1) = l.drop (i + 1) := by
  induction l generalizing i with
  | nil => simp
  | cons x xs ih =>
    cases i with
    | zero => simp
    | succ j =>
      rw [List.set_cons_succ, List.drop_succ_cons, List.drop_succ_cons]
      exact ih j

theorem getD_set_self (l : List Nat) (i a : Nat) (h : i < l.length) :
    (l.set i a).getD i 1 = a := by
  have hl : i < (l.set i a).length := by simpa using h
  rw [List.getD_eq_getElem?_getD, List.getElem?_eq_getElem hl]
  simp

theorem getD_eq_one_of_le (l : List Nat) (n : Nat) (h : l.length ≤ n) :
    l.getD n 1 = 1 := by
  rw [List.getD_eq_getElem?_getD, List.getElem?_eq_none h]
  rfl

theorem prod_take_getD_drop (l : List Nat) (d : Nat) :
    l.prod = (l.take d).prod * l.getD d 1 * (l.drop (d + 1)).prod := by
  by_cases h : d < l.length
  · have hdrop : l.drop d = l[d] :: l.drop (d + 1) := List.drop_eq_getElem_cons h
    have hgd : l.getD d 1 = l[d] := by
      rw [List.getD_eq_getElem?_getD, List.getElem?_eq_getElem h]
      rfl
    calc l.prod = (l.take d).prod * (l.drop d).prod :=
          (List.prod_take_mul_prod_drop l d).symm
      _ = (l.take d).prod * (l[d] * (l.drop (d + 1)).prod) := by
          rw [hdrop, List.prod_cons]
      _ = (l.take d).prod * l.getD d 1 * (l.drop (d + 1)).prod := by
          rw [hgd]; ring
  · have hlen : l.length ≤ d := Nat.le_of_not_lt h
    rw [List.take_of_length_le hlen, List.drop_eq_nil_of_le (by omega),
      getD_eq_one_of_le l d hlen]
    simp

theorem resize_dim_batch_size (s : Shape) (d n : Nat) :
    (s.resize_dim d n).batch_size = s.batch_size := by
  unfold Shape.resize_dim Shape.batch_size
  split <;> rfl

theorem resize_dim_under (s : Shape) (d n : Nat) :
    (s.resize_dim d n).num_elements_under_rank d
      = s.num_elements_under_rank d := by
  unfold Shape.resize_dim Shape.num_elements_under_rank
  split
  case isTrue h =>
    show ((s.dims.set d n).take d).prod = (s.dims.take d).prod
    rw [take_set_self]
  case isFalse h =>
    have hlen : s.dims.length ≤ d := Nat.le_of_not_lt h
    have hlen2 : (s.dims ++ List.replicate (d - s.dims.length) 1).length = d := by
      simp only [List.length_append, List.length_replicate]
      omega
    show ((s.dims ++ List.replicate (d - s.dims.length) 1 ++ [n]).take d).prod
      = (s.dims.take d).prod
    rw [List.take_append_eq_append_take, hlen2, Nat.sub_self, List.take_zero,
      List.append_nil, List.take_of_length_le (le_of_eq hlen2),
      List.prod_append, List.prod_replicate, one_pow, mul_one,
      List.take_of_length_le hlen]

theorem resize_dim_dim (s : Shape) (d n : Nat) :
    (s.resize_dim d n).dim d = n := by
  unfold Shape.resize_dim Shape.dim
  split
  case isTrue h =>
    exact getD_set_self s.dims d n h
  case isFalse h =>
    have hlen : s.dims.length ≤ d := Nat.le_of_not_lt h
    have hlen2 : (s.dims ++ List.replicate (d - s.dims.length) 1).length = d := by
      simp only [List.length_append, List.length_replicate]
      omega
    show (s.dims ++ List.replicate (d - s.dims.length) 1 ++ [n]).getD d 1 = n
    rw [List.getD_eq_getElem?_getD, List.getElem?_append_right hlen2.le, hlen2,
      Nat.sub_self]
    rfl

theorem resize_dim_after (s : Shape) (d n : Nat) :
    ((s.resize_dim d n).dims.drop (d + 1)).prod
      = (s.dims.drop (d + 1)).prod := by
  unfold Shape.resize_dim
  split
  case isTrue h =>
    show ((s.dims.set d n).drop (d + 1)).prod = (s.dims.drop (d + 1)).prod
    rw [drop_succ_set]
  case isFalse h =>
    have hlen : s.dims.length ≤ d := Nat.le_of_not_lt h
    have hl3 : (s.dims ++ List.replicate (d - s.dims.length) 1 ++ [n]).length
        = d + 1 := by
      simp only [List.length_append, List.length_replicate, List.length_cons,
        List.length_nil]
      omega
    show ((s.dims ++ List.replicate (d - s.dims.length) 1 ++ [n]).drop (d + 1)).prod
      = (s.dims.drop (d + 1)).prod
    rw [List.drop_eq_nil_of_le (le_of_eq hl3),
      List.drop_eq_nil_of_le (by omega : s.dims.length ≤ d + 1)]

theorem resize_dim_per_sample (s : Shape) (d n : Nat) :
    (s.resize_dim d n).num_elements_per_sample
      = s.num_elements_under_rank d * n * (s.dims.drop (d + 1)).prod := by
  unfold Shape.num_elements_per_sample
  rw [prod_take_getD_drop ((s.resize_dim d n).dims) d]
  have h1 : ((s.resize_dim d n).dims.take d).prod = s.num_elements_under_rank d :=
    resize_dim_under s d n
  have h2 : (s.resize_dim d n).dims.getD d 1 = n := resize_dim_dim s d n
  have h3 : ((s.resize_dim d n).dims.drop (d + 1)).prod
      = (s.dims.drop (d + 1)).prod := resize_dim_after s d n
  rw [h1, h2, h3]

theorem slice_impl_shape (x : Tensor) (dim offset : Nat) (new_shape : Shape) :
    (slice_impl x dim offset new_shape).shape = new_shape := rfl

theorem slice_chunk (x : Tensor) (d off len b i : Nat)
    (hlen : 0 < len)
    (hbase : 0 < x.shape.num_elements_under_rank d)
    (hb : b < x.shape.batch_size)
    (hi : i < (x.shape.dims.drop (d + 1)).prod) :
    rangeMap (x.shape.num_elements_under_rank d * len)
      (fun j => (slice_impl x d off (x.shape.resize_dim d len)).el
        (b * ((if 1 < x.shape.batch_size then 1 else 0)
            * (x.shape.num_elements_under_rank d * len)
            * (x.shape.dims.drop (d + 1)).prod)
          + i * (x.shape.num_elements_under_rank d * len) + j))
    = rangeMap (x.shape.num_elements_under_rank d * len)
      (fun j => x.el (b * ((x.shape.dims.drop (d + 1)).prod
            * (x.shape.num_elements_under_rank d * x.shape.dim d))
          + (i * (x.shape.num_elements_under_rank d * x.shape.dim d)
            + (x.shape.num_elements_under_rank d * off + j)))) := by
  have hApos : 0 < x.shape.num_elements_under_rank d * len :=
    Nat.mul_pos hbase hlen
  have hbase' : (x.shape.resize_dim d len).num_elements_under_rank d
      = x.shape.num_elements_under_rank d := resize_dim_under x.shape d len
  have hdim' : (x.shape.resize_dim d len).dim d = len := resize_dim_dim x.shape d len
  have hspan : (x.shape.resize_dim d len).num_elements_under_rank d
        * (x.shape.resize_dim d len).dim d
      = x.shape.num_elements_under_rank d * len := by rw [hbase', hdim']
  have htotal : (x.shape.resize_dim d len).num_total_elements
      = (x.shape.num_elements_under_rank d * len)
        * ((x.shape.dims.drop (d + 1)).prod * x.shape.batch_size) := by
    unfold Shape.num_total_elements
    rw [resize_dim_per_sample]
    have hbb : (x.shape.resize_dim d len).batch = x.shape.batch_size := by
      unfold Shape.resize_dim Shape.batch_size
      split <;> rfl
    rw [hbb]
    ring
  have hrep : (x.shape.resize_dim d len).num_total_elements
        / ((x.shape.resize_dim d len).num_elements_under_rank d
          * (x.shape.resize_dim d len).dim d)
      = (x.shape.dims.drop (d + 1)).prod * x.shape.batch_size := by
    rw [htotal, hspan]
    exact Nat.mul_div_cancel_left _ hApos
  unfold rangeMap
  apply List.map_congr_left
  intro j hj
  have hjA : j < x.shape.num_elements_under_rank d * len := List.mem_range.1 hj
  have ht' : b * ((if 1 < x.shape.batch_size then 1 else 0)
        * (x.shape.num_elements_under_rank d * len)
        * (x.shape.dims.drop (d + 1)).prod)
      + i * (x.shape.num_elements_under_rank d * len) + j
      = (x.shape.num_elements_under_rank d * len)
        * (b * (x.shape.dims.drop (d + 1)).prod + i) + j := by
    rcases Nat.lt_or_ge 1 x.shape.batch_size with hbs | hbs
    · rw [if_pos hbs]
      ring
    · have hb0 : b = 0 := by omega
      subst hb0
      ring_nf
  rw [ht']
  have hm1 : b * (x.shape.dims.drop (d + 1)).prod + i
      < x.shape.batch_size * (x.shape.dims.drop (d + 1)).prod := by
    calc b * (x.shape.dims.drop (d + 1)).prod + i
        < b * (x.shape.dims.drop (d + 1)).prod
            + (x.shape.dims.drop (d + 1)).prod := by omega
      _ = (b + 1) * (x.shape.dims.drop (d + 1)).prod := by ring
      _ ≤ x.shape.batch_size * (x.shape.dims.drop (d + 1)).prod :=
          Nat.mul_le_mul_right _ hb
  have hbound : (x.shape.num_elements_under_rank d * len)
        * (b * (x.shape.dims.drop (d + 1)).prod + i) + j
      < ((x.shape.resize_dim d len).num_total_elements
          / ((x.shape.resize_dim d len).num_elements_under_rank d
            * (x.shape.resize_dim d len).dim d))
        * ((x.shape.resize_dim d len).num_elements_under_rank d
          * (x.shape.resize_dim d len).dim d) := by
    rw [hrep, hspan]
    calc (x.shape.num_elements_under_rank d * len)
          * (b * (x.shape.dims.drop (d + 1)).prod + i) + j
        < (x.shape.num_elements_under_rank d * len)
          * (b * (x.shape.dims.drop (d + 1)).prod + i)
          + (x.shape.num_elements_under_rank d * len) := by omega
      _ = (x.shape.num_elements_under_rank d * len)
          * (b * (x.shape.dims.drop (d + 1)).prod + i + 1) := by ring
      _ ≤ (x.shape.num_elements_under_rank d * len)
          * (x.shape.batch_size * (x.shape.dims.drop (d + 1)).prod) := by
          apply Nat.mul_le_mul_left
          omega
      _ = (x.shape.dims.drop (d + 1)).prod * x.shape.batch_size
          * (x.shape.num_elements_under_rank d * len) := by ring
  have hel : (slice_impl x d off (x.shape.resize_dim d len)).el
      ((x.shape.num_elements_under_rank d * len)
        * (b * (x.shape.dims.drop (d + 1)).prod + i) + j)
      = x.el ((x.shape.resize_dim d len).num_elements_under_rank d * off
        + ((((x.shape.num_elements_under_rank d * len)
              * (b * (x.shape.dims.drop (d + 1)).prod + i) + j)
            / ((x.shape.resize_dim d len).num_elements_under_rank d
              * (x.shape.resize_dim d len).dim d))
          * ((x.shape.resize_dim d len).num_elements_under_rank d
            * x.shape.dim d))
        + (((x.shape.num_elements_under_rank d * len)
              * (b * (x.shape.dims.drop (d + 1)).prod + i) + j)
            % ((x.shape.resize_dim d len).num_elements_under_rank d
              * (x.shape.resize_dim d len).dim d))) := by
    unfold slice_impl Tensor.el
    exact rangeMap_getD _ _ _ hbound
  rw [hel, hspan, hbase']
  have hdivj : ((x.shape.num_elements_under_rank d * len)
        * (b * (x.shape.dims.drop (d + 1)).prod + i) + j)
        / (x.shape.num_elements_under_rank d * len)
      = b * (x.shape.dims.drop (d + 1)).prod + i := by
    rw [Nat.mul_add_div hApos, Nat.div_eq_of_lt hjA, Nat.add_zero]
  have hmodj : ((x.shape.num_elements_under_rank d * len)
        * (b * (x.shape.dims.drop (d + 1)).prod + i) + j)
        % (x.shape.num_elements_under_rank d * len)
      = j := by
    rw [Nat.mul_add_mod, Nat.mod_eq_of_lt hjA]
  rw [hdivj, hmodj]
  congr 1
  ring

theorem Tensor.ext_mk (t u : Tensor) (h1 : t.shape = u.shape)
    (h2 : t.values = u.values) : t = u := by
  cases t
  cases u
  cases h1
  cases h2
  rfl

theorem concat_chunks (x : Tensor) (d b i : Nat)
    (hbase : 0 < x.shape.num_elements_under_rank d)
    (hb : b < x.shape.batch_size)
    (hi : i < (x.shape.dims.drop (d + 1)).prod) :
    ∀ (L : List (Nat × Nat)) (o : Nat), consecutive o L →
      (∀ p ∈ L, 0 < p.snd) →
      ((L.map (fun p => slice_impl x d p.fst (x.shape.resize_dim d p.snd))).flatMap
        (fun xp => rangeMap (x.shape.num_elements_under_rank d * xp.shape.dim d)
          (fun j => xp.el (b * ((if 1 < xp.shape.batch_size then 1 else 0)
              * (x.shape.num_elements_under_rank d * xp.shape.dim d)
              * (x.shape.dims.drop (d + 1)).prod)
            + i * (x.shape.num_elements_under_rank d * xp.shape.dim d) + j))))
      = rangeMap (x.shape.num_elements_under_rank d * (L.map Prod.snd).sum)
          (fun q => x.el (b * ((x.shape.dims.drop (d + 1)).prod
              * (x.shape.num_elements_under_rank d * x.shape.dim d))
            + (i * (x.shape.num_elements_under_rank d * x.shape.dim d)
              + (x.shape.num_elements_under_rank d * o + q)))) := by
  intro L
  induction L with
  | nil =>
    intro o _ _
    rw [List.map_nil, List.flatMap_nil, List.map_nil, List.sum_nil, Nat.mul_zero]
    rfl
  | cons p rest ih =>
    intro o hcons hpos
    obtain ⟨off, len⟩ := p
    obtain ⟨hoff, hcons'⟩ := hcons
    dsimp only at hoff hcons'
    subst hoff
    have hpos_head : 0 < len := by
      have := hpos (off, len) (List.mem_cons_self _ _)
      simpa using this
    have hpos_rest : ∀ q ∈ rest, 0 < q.snd :=
      fun q hq => hpos q (List.mem_cons_of_mem _ hq)
    rw [List.map_cons, List.flatMap_cons, List.map_cons, List.sum_cons,
      Nat.mul_add, rangeMap_add]
    congr 1
    · dsimp only
      simp only [slice_impl_shape, resize_dim_dim, resize_dim_batch_size]
      exact slice_chunk x d off len b i hpos_head hbase hb hi
    · rw [ih (off + len) hcons' hpos_rest]
      unfold rangeMap
      apply List.map_congr_left
      intro q _
      congr 1
      ring

/-- C2: slicing a tensor along an axis by any consecutive partition of its
extent into positive-length ranges, then concatenating the pieces along the same
axis with the original output shape, reproduces the original tensor: equal shape
and equal column-major cell sequence. -/
theorem slice_concat_roundtrip (x : Tensor) (d : Nat) (pieces : List (Nat × Nat))
    (hwf : x.wf)
    (hdims : ∀ e ∈ x.shape.dims, 0 < e)
    (hcons : consecutive 0 pieces)
    (hcover : (pieces.map Prod.snd).sum = x.shape.dim d)
    (hpos : ∀ p ∈ pieces, 0 < p.snd) :
    concat_impl (pieces.map (fun p =>
      slice_impl x d p.fst (x.shape.resize_dim d p.snd))) d x.shape = x := by
  have hbase : 0 < x.shape.num_elements_under_rank d := by
    apply List.prod_pos
    intro a ha
    exact hdims a (List.mem_of_mem_take ha)
  have hn : 0 < x.shape.dim d := by
    unfold Shape.dim
    by_cases hdl : d < x.shape.dims.length
    · have hg : x.shape.dims.getD d 1 = x.shape.dims[d] := by
        rw [List.getD_eq_getElem?_getD, List.getElem?_eq_getElem hdl]
        rfl
      rw [hg]
      exact hdims _ (List.getElem_mem hdl)
    · rw [getD_eq_one_of_le _ _ (Nat.le_of_not_lt hdl)]
      norm_num
  have hafter : 0 < (x.shape.dims.drop (d + 1)).prod := by
    apply List.prod_pos
    intro a ha
    exact hdims a (List.mem_of_mem_drop ha)
  have hps : x.shape.num_elements_per_sample
      = x.shape.num_elements_under_rank d * x.shape.dim d
        * (x.shape.dims.drop (d + 1)).prod := prod_take_getD_drop _ d
  have hrep : x.shape.num_elements_per_sample
        / (x.shape.num_elements_under_rank d * x.shape.dim d)
      = (x.shape.dims.drop (d + 1)).prod := by
    rw [hps]
    exact Nat.mul_div_cancel_left _ (Nat.mul_pos hbase hn)
  refine Tensor.ext_mk _ _ ?_ ?_
  · rfl
  show ((List.range x.shape.batch_size).flatMap (fun b =>
      (List.range (x.shape.num_elements_per_sample
          / (x.shape.num_elements_under_rank d * x.shape.dim d))).flatMap (fun i =>
        (pieces.map (fun p =>
            slice_impl x d p.fst (x.shape.resize_dim d p.snd))).flatMap
          (fun xp => rangeMap
            (x.shape.num_elements_under_rank d * xp.shape.dim d)
            (fun j => xp.el (b * ((if 1 < xp.shape.batch_size then 1 else 0)
                * (x.shape.num_elements_under_rank d * xp.shape.dim d)
                * (x.shape.num_elements_per_sample
                  / (x.shape.num_elements_under_rank d * x.shape.dim d)))
              + i * (x.shape.num_elements_under_rank d * xp.shape.dim d)
              + j))))))
    = x.values
  simp only [hrep]
  have hstep1 : ∀ b ∈ List.range x.shape.batch_size,
      ((List.range ((x.shape.dims.drop (d + 1)).prod)).flatMap (fun i =>
        (pieces.map (fun p =>
            slice_impl x d p.fst (x.shape.resize_dim d p.snd))).flatMap
          (fun xp => rangeMap
            (x.shape.num_elements_under_rank d * xp.shape.dim d)
            (fun j => xp.el (b * ((if 1 < xp.shape.batch_size then 1 else 0)
                * (x.shape.num_elements_under_rank d * xp.shape.dim d)
                * (x.shape.dims.drop (d + 1)).prod)
              + i * (x.shape.num_elements_under_rank d * xp.shape.dim d)
              + j)))))
      = rangeMap ((x.shape.dims.drop (d + 1)).prod
          * (x.shape.num_elements_under_rank d * x.shape.dim d))
        (fun r => x.el (b * ((x.shape.dims.drop (d + 1)).prod
            * (x.shape.num_elements_under_rank d * x.shape.dim d)) + r)) := by
    intro b hbmem
    have hb := List.mem_range.1 hbmem
    have hstep0 : ∀ i ∈ List.range ((x.shape.dims.drop (d + 1)).prod),
        ((pieces.map (fun p =>
            slice_impl x d p.fst (x.shape.resize_dim d p.snd))).flatMap
          (fun xp => rangeMap
            (x.shape.num_elements_under_rank d * xp.shape.dim d)
            (fun j => xp.el (b * ((if 1 < xp.shape.batch_size then 1 else 0)
                * (x.shape.num_elements_under_rank d * xp.shape.dim d)
                * (x.shape.dims.drop (d + 1)).prod)
              + i * (x.shape.num_elements_under_rank d * xp.shape.dim d)
              + j))))
        = rangeMap (x.shape.num_elements_under_rank d * x.shape.dim d)
          (fun q => x.el (b * ((x.shape.dims.drop (d + 1)).prod
              * (x.shape.num_elements_under_rank d * x.shape.dim d))
            + (i * (x.shape.num_elements_under_rank d * x.shape.dim d) + q))) := by
      intro i himem
      have hi := List.mem_range.1 himem
      have hcc := concat_chunks x d b i hbase hb hi pieces 0 hcons hpos
      rw [hcover] at hcc
      rw [hcc]
      unfold rangeMap
      apply List.map_congr_left
      intro q _
      congr 1
      ring
    rw [flatMap_congr_left _ _ _ hstep0]
    exact flatMap_range_rangeMap ((x.shape.dims.drop (d + 1)).prod)
      (x.shape.num_elements_under_rank d * x.shape.dim d)
      (fun r => x.el (b * ((x.shape.dims.drop (d + 1)).prod
        * (x.shape.num_elements_under_rank d * x.shape.dim d)) + r))
  rw [flatMap_congr_left _ _ _ hstep1]
  rw [flatMap_range_rangeMap x.shape.batch_size
    ((x.shape.dims.drop (d + 1)).prod
      * (x.shape.num_elements_under_rank d * x.shape.dim d)) x.el]
  have hlen : x.shape.batch_size * ((x.shape.dims.drop (d + 1)).prod
      * (x.shape.num_elements_under_rank d * x.shape.dim d))
      = x.values.length := by
    rw [hwf]
    unfold Shape.num_total_elements Shape.batch_size
    rw [hps]
    ring
  rw [hlen]
  exact rangeMap_getD_self x.values

theorem slice_concat_roundtrip_witness :
    (⟨⟨[2], 1⟩, [1, 2]⟩ : Tensor).wf ∧
    consecutive 0 [(0, 1), (1, 1)] ∧
    ([(0, 1), (1, 1)].map Prod.snd).sum = (⟨[2], 1⟩ : Shape).dim 0 ∧
    concat_impl ([(0, 1), (1, 1)].map (fun p =>
      slice_impl ⟨⟨[2], 1⟩, [1, 2]⟩ 0 p.fst ((⟨[2], 1⟩ : Shape).resize_dim 0 p.snd)))
      0 ⟨[2], 1⟩ = ⟨⟨[2], 1⟩, [1, 2]⟩ := by
  have hwf : (⟨⟨[2], 1⟩, [1, 2]⟩ : Tensor).wf := by
    simp [Tensor.wf, Shape.num_total_elements, Shape.num_elements_per_sample]
  have hcons : consecutive 0 [(0, 1), (1, 1)] := by
    simp [consecutive]
  have hcover : ([(0, 1), (1, 1)].map Prod.snd).sum = (⟨[2], 1⟩ : Shape).dim 0 := by
    simp [Shape.dim]
  refine ⟨hwf, hcons, hcover, ?_⟩
  exact slice_concat_roundtrip ⟨⟨[2], 1⟩, [1, 2]⟩ 0 [(0, 1), (1, 1)] hwf
    (by simp) hcons hcover (by simp)

end Primitiv
